import Mathlib

/-!
Verification of the core services of the romba ROM-manager bot:
the search-result cache (`CacheService`), the two archive search clients
(`VimmsService`, `MyrientService`), the download queue executor
(`DownloadService` over `DatabaseService`), and the CD-image converter
(`CHDConverterService`).

The TypeScript services are embedded shallowly: every function below is a
direct translation of the corresponding function in `src/services/*.ts`,
with JavaScript strings modelled as `String` (lower-casing done
character-wise, matching `toLowerCase` on ASCII data), JavaScript numbers
modelled as exact `Nat`/`Int` arithmetic, asynchronous effects modelled as
explicit state passing, and the stable `Array.prototype.sort` modelled by
a stable insertion sort (two stable sorts under the same comparator agree
elementwise).
-/

namespace Romba

/-! ## Character and string helpers (models of the JS string primitives used) -/

/-- Model of `String.prototype.toLowerCase` on ASCII data: lower-case every
character. Done on the character list so that it evaluates by `decide`. -/
def lowerStr (s : String) : String :=
  String.mk (s.data.map Char.toLower)

/-- Does `pat` occur as a contiguous sublist of `s`? Model of
`String.prototype.includes`. -/
def listContainsSub (pat : List Char) : List Char → Bool
  | [] => pat.isEmpty
  | c :: rest => pat.isPrefixOf (c :: rest) || listContainsSub pat rest

/-- Model of `haystack.includes(needle)` for JS strings. -/
def strContains (s pat : String) : Bool :=
  listContainsSub pat.data s.data

/-- Numeric value of a list of ASCII digits (most significant first). -/
def digitsToNat (ds : List Char) : Nat :=
  ds.foldl (fun acc c => acc * 10 + (c.toNat - '0'.toNat)) 0

/-- Model of `parseInt(p) || 0` as used on version components: skip leading
whitespace, read the leading run of decimal digits, yield 0 when there is
none (`parseInt` yields `NaN` there and `|| 0` maps it to 0). Sign handling
is omitted: the caller has already routed every string containing a dash to
the date branch, so no input here contains a minus sign. -/
def parseIntOr0 (cs : List Char) : Nat :=
  digitsToNat ((cs.dropWhile Char.isWhitespace).takeWhile Char.isDigit)

/-- Split a character list on a separator character; model of
`String.prototype.split` with a single-character separator. -/
def splitOnChar (sep : Char) : List Char → List (List Char)
  | [] => [[]]
  | c :: rest =>
    let r := splitOnChar sep rest
    if c = sep then [] :: r
    else
      match r with
      | [] => [[c]]
      | h :: t => (c :: h) :: t

/-- Lexicographic code-point order on character lists; shallow model of the
`localeCompare`-based final alphabetical sort (locale collation is modelled
as code-point order). -/
def charListLE : List Char → List Char → Bool
  | [], _ => true
  | _ :: _, [] => false
  | a :: as, b :: bs => if a = b then charListLE as bs else decide (a.toNat < b.toNat)

/-! ## Stable sort

`Array.prototype.sort` with a comparator `cmp` is a stable sort by the
boolean relation `le a b := cmp(a,b) <= 0`.  Any two stable sorts agree, so
it is modelled by a structurally recursive stable insertion sort. -/

/-- Insert `a` into `l`, passing over elements strictly below `a` and
stopping at the first element not strictly below, so that `a` lands before
every element it ties with (stability for an element arriving from the
left). -/
def insertSorted {α : Type} (le : α → α → Bool) (a : α) : List α → List α
  | [] => [a]
  | b :: bs => if le b a && !(le a b) then b :: insertSorted le a bs else a :: b :: bs

/-- Stable sort by the boolean relation `le`. -/
def stableSort {α : Type} (le : α → α → Bool) : List α → List α
  | [] => []
  | a :: as => insertSorted le a (stableSort le as)

theorem insertSorted_perm {α : Type} (le : α → α → Bool) (a : α) (l : List α) :
    List.Perm (insertSorted le a l) (a :: l) := by
  induction l with
  | nil => simp [insertSorted]
  | cons b bs ih =>
    by_cases h : (le b a && !(le a b)) = true
    · simp only [insertSorted, h, if_pos]
      exact (List.Perm.cons b ih).trans (List.Perm.swap a b bs)
    · simp only [insertSorted, h, if_neg]
      simp at h
      simp [insertSorted, h]

theorem stableSort_perm {α : Type} (le : α → α → Bool) (l : List α) :
    List.Perm (stableSort le l) l := by
  induction l with
  | nil => simp [stableSort]
  | cons a as ih =>
    exact (insertSorted_perm le a (stableSort le as)).trans (List.Perm.cons a ih)

theorem mem_insertSorted {α : Type} (le : α → α → Bool) (a x : α) (l : List α) :
    x ∈ insertSorted le a l ↔ x = a ∨ x ∈ l := by
  rw [(insertSorted_perm le a l).mem_iff]
  simp

theorem pairwise_insertSorted {α : Type} (le : α → α → Bool)
    (htrans : ∀ a b c, le a b = true → le b c = true → le a c = true)
    (htotal : ∀ a b, le a b = true ∨ le b a = true)
    (a : α) (l : List α) (hl : List.Pairwise (fun x y => le x y = true) l) :
    List.Pairwise (fun x y => le x y = true) (insertSorted le a l) := by
  induction l with
  | nil => simp [insertSorted]
  | cons b bs ih =>
    rcases List.pairwise_cons.mp hl with ⟨hb, hbs⟩
    by_cases h : (le b a && !(le a b)) = true
    · rw [Bool.and_eq_true, Bool.not_eq_true', Bool.eq_false_iff] at h
      simp only [insertSorted, Bool.and_eq_true, Bool.not_eq_true', h.1, Bool.eq_false_iff, h.2,
        not_false_eq_true, and_true, if_pos, true_and]
      refine List.pairwise_cons.mpr ⟨?_, ih hbs⟩
      intro x hx
      rcases (mem_insertSorted le a x bs).mp hx with rfl | hx
      · exact h.1
      · exact hb x hx
    · have hab : le a b = true := by
        rw [Bool.and_eq_true, Bool.not_eq_true'] at h
        push_neg at h
        rcases htotal a b with hh | hh
        · exact hh
        · simpa using h hh
      simp only [insertSorted, h, if_neg, not_false_eq_true]
      refine List.pairwise_cons.mpr ⟨?_, hl⟩
      intro x hx
      rcases List.mem_cons.mp hx with rfl | hx
      · exact hab
      · exact htrans a b x hab (hb x hx)

theorem pairwise_stableSort {α : Type} (le : α → α → Bool)
    (htrans : ∀ a b c, le a b = true → le b c = true → le a c = true)
    (htotal : ∀ a b, le a b = true ∨ le b a = true)
    (l : List α) :
    List.Pairwise (fun x y => le x y = true) (stableSort le l) := by
  induction l with
  | nil => simp [stableSort]
  | cons a as ih => exact pairwise_insertSorted le htrans htotal a (stableSort le as) ih

/-! ## Data model (`src/types/index.ts`) -/

/-- A search-result candidate (`Game` in `src/types/index.ts`). -/
structure Game where
  name : String
  url : String
  size : Option String
  console : String
  vaultId : Option String
  region : Option String
  version : Option String
deriving DecidableEq, Repr

/-- A search result (`SearchResult` in `src/types/index.ts`). -/
structure SearchResult where
  games : List Game
  totalFound : Nat
  searchTerm : String
  console : String
deriving DecidableEq, Repr

/-- Download job status (`DownloadJob.status`). -/
inductive JobStatus where
  | queued
  | downloading
  | completed
  | failed
deriving DecidableEq, Repr

/-- A download job (`DownloadJob` in `src/types/index.ts`); timestamps are
modelled as integers (milliseconds). -/
structure DownloadJob where
  id : String
  game : Game
  status : JobStatus
  progress : Nat
  startTime : Option Int
  completedTime : Option Int
  filePath : Option String
  error : Option String
deriving DecidableEq, Repr

/-! ## Result cache (`src/services/cache.ts`, `CacheService`) -/

/-- A cache record (`CacheEntry` in `cache.ts`). -/
structure CacheEntry where
  result : SearchResult
  timestamp : Int
  ttl : Int
deriving DecidableEq, Repr

/-- The cache store: the directory of key-named JSON files, modelled as an
association list keyed by the cache key (keys are unique: `set` overwrites). -/
def CacheStore : Type := List (String × CacheEntry)

/-- `CacheService.defaultTTL`: 24 hours in milliseconds. -/
def defaultTTL : Int := 24 * 60 * 60 * 1000

/-- `CacheService.getCacheKey`: join service, console system and the
normalized search term with underscores; the term is lower-cased and every
character outside `[a-z0-9]` becomes an underscore. -/
def getCacheKey (service consoleSystem searchTerm : String) : String :=
  service ++ "_" ++ consoleSystem ++ "_" ++
    String.mk ((lowerStr searchTerm).data.map
      (fun c => if c.isLower || c.isDigit then c else '_'))

/-- Remove every record stored under key `k` (model of deleting the file
with that name). -/
def cacheErase (c : CacheStore) (k : String) : CacheStore :=
  List.filter (fun p => !(p.1 == k)) c

/-- `CacheService.set`: store the result under the derived key with the
current timestamp and the supplied TTL, or the default TTL when the
argument is absent (or `0`, which is falsy under `ttl || defaultTTL`).
Overwrites any record under the same key. -/
def cacheSet (c : CacheStore) (service consoleSystem searchTerm : String)
    (result : SearchResult) (now : Int) (ttl : Option Int) : CacheStore :=
  let k := getCacheKey service consoleSystem searchTerm
  (k, { result := result, timestamp := now,
        ttl := match ttl with
               | some t => if t = 0 then defaultTTL else t
               | none => defaultTTL }) :: cacheErase c k

/-- `CacheService.get`: look the derived key up; a missing record is a miss;
a record whose age `now - timestamp` exceeds its TTL is deleted and reported
as a miss; otherwise the stored result is returned.  The returned pair is
(result, cache store after the call). -/
def cacheGet (c : CacheStore) (service consoleSystem searchTerm : String)
    (now : Int) : Option SearchResult × CacheStore :=
  let k := getCacheKey service consoleSystem searchTerm
  match List.lookup k c with
  | none => (none, c)
  | some e => if e.ttl < now - e.timestamp then (none, cacheErase c k) else (some e.result, c)

theorem lookup_cacheErase (c : CacheStore) (k : String) :
    List.lookup k (cacheErase c k) = none := by
  induction c with
  | nil => rfl
  | cons p rest ih =>
    cases p with
    | mk k' e =>
      by_cases h : k' = k
      · subst h
        simp only [cacheErase, List.filter_cons, beq_self_eq_true, Bool.not_true,
          Bool.false_eq_true, if_neg, not_false_eq_true]
        exact ih
      · have hb : (k' == k) = false := by rw [beq_eq_false_iff_ne]; exact h
        have hb2 : (k == k') = false := by rw [beq_eq_false_iff_ne]; exact Ne.symm h
        simp only [cacheErase, List.filter_cons, hb, Bool.not_false, if_pos, List.lookup, hb2]
        exact ih

/-! ## CD-image converter (`src/services/chd-converter.ts`, `CHDConverterService`) -/

/-- `CHDConverterService.CD_BASED_SYSTEMS`. -/
def CD_BASED_SYSTEMS : List String := ["psx", "ps2", "saturn", "dreamcast", "segacd"]

/-- `CHDConverterService.CD_EXTENSIONS`. -/
def CD_EXTENSIONS : List String := [".bin", ".iso", ".img", ".cue"]

/-- `path.basename`: the part of the path after the last slash. -/
def basenameOf (p : String) : String :=
  String.mk ((p.data.reverse.takeWhile (fun c => c ≠ '/')).reverse)

/-- `path.extname`: the suffix of the basename from its last dot, or the
empty string when the basename has no dot or only a leading dot. -/
def extname (p : String) : String :=
  let b := (basenameOf p).data
  match List.findIdx? (fun c => c = '.') b.reverse with
  | none => ""
  | some j =>
    let i := b.length - 1 - j
    if i = 0 then "" else String.mk (b.drop i)

/-- `CHDConverterService.isCDBasedSystem`: case-insensitive membership in
the fixed CD-based list. -/
def isCDBasedSystem (systemName : String) : Bool :=
  CD_BASED_SYSTEMS.contains (lowerStr systemName)

/-- `CHDConverterService.shouldConvertToCHD`: CD-based system and
convertible extension (extension compared lower-cased). -/
def shouldConvertToCHD (filePath systemName : String) : Bool :=
  if !(isCDBasedSystem systemName) then false
  else CD_EXTENSIONS.contains (lowerStr (extname filePath))

/-! ## Job store (`src/services/database.ts`, `DatabaseService`) -/

/-- A partial job update (`Partial<DownloadJob>` as passed to
`updateDownload`); `Object.assign` overwrites exactly the present fields. -/
structure JobUpdate where
  status : Option JobStatus
  progress : Option Nat
  startTime : Option Int
  completedTime : Option Int
  filePath : Option String
  error : Option String
deriving DecidableEq, Repr

/-- Overwrite a field when the update carries it. -/
def overrideOpt {α : Type} (upd cur : Option α) : Option α :=
  match upd with
  | some a => some a
  | none => cur

/-- `Object.assign(job, updates)` for the fields of `DownloadJob`. -/
def applyUpdate (j : DownloadJob) (u : JobUpdate) : DownloadJob :=
  { id := j.id
    game := j.game
    status := match u.status with | some st => st | none => j.status
    progress := match u.progress with | some p => p | none => j.progress
    startTime := overrideOpt u.startTime j.startTime
    completedTime := overrideOpt u.completedTime j.completedTime
    filePath := overrideOpt u.filePath j.filePath
    error := overrideOpt u.error j.error }

/-- Global settings (`DatabaseSchema.settings`). -/
structure Settings where
  downloadPath : String
  maxConcurrentDownloads : Nat
deriving DecidableEq, Repr

/-- The persisted database state (`DatabaseSchema`). -/
structure DBState where
  downloads : List DownloadJob
  settings : Settings
deriving DecidableEq, Repr

/-- `DatabaseService.addDownload`: a fresh job is queued with progress 0 and
a start timestamp (the generated UUID is passed in as `id`). -/
def addDownload (id : String) (game : Game) (now : Int) : DownloadJob :=
  { id := id, game := game, status := JobStatus.queued, progress := 0,
    startTime := some now, completedTime := none, filePath := none, error := none }

/-- `DatabaseService.updateDownload` uses `find` and mutates the found job:
apply the update to the first job with the given id. -/
def updateFirst (id : String) (u : JobUpdate) : List DownloadJob → List DownloadJob
  | [] => []
  | j :: rest => if j.id = id then applyUpdate j u :: rest else j :: updateFirst id u rest

/-- `DatabaseService.updateDownload` lifted to the database state. -/
def updateDownload (db : DBState) (id : String) (u : JobUpdate) : DBState :=
  { downloads := updateFirst id u db.downloads, settings := db.settings }

/-- `DatabaseService.getDownloadsByStatus`. -/
def getDownloadsByStatus (db : DBState) (st : JobStatus) : List DownloadJob :=
  db.downloads.filter (fun j => j.status == st)

/-- `DatabaseService.getQueuedDownloads`. -/
def getQueuedDownloads (db : DBState) : List DownloadJob :=
  getDownloadsByStatus db JobStatus.queued

/-- The first stored job with the given id (`find` as used by
`updateDownload`). -/
def getJob (db : DBState) (id : String) : Option DownloadJob :=
  db.downloads.find? (fun j => j.id == id)

/-! ## Download executor (`src/services/downloader.ts`, `DownloadService`) -/

/-- The executor state: the job store plus the in-memory map of in-flight
job ids (`activeDownloads`; insertion-ordered keys of the `Map`). -/
structure DLState where
  db : DBState
  activeDownloads : List String
deriving DecidableEq, Repr

/-- `Math.round(num / den)` for nonnegative numerator and positive
denominator: round half up, computed exactly. -/
def jsRound (num den : Nat) : Nat :=
  (2 * num + den) / (2 * den)

/-- The progress value computed in the `data` handler of `startDownload`:
`totalLength > 0 ? Math.round((downloadedLength / totalLength) * 100) : 0`. -/
def progressValue (downloadedLength totalLength : Nat) : Nat :=
  if 0 < totalLength then jsRound (downloadedLength * 100) totalLength else 0

/-- The successive progress values written by the `data` handler, starting
from `downloaded` bytes already received, one write per received chunk. -/
def transferGo (totalLength : Nat) : Nat → List Nat → List Nat
  | _, [] => []
  | downloaded, c :: rest =>
    progressValue (downloaded + c) totalLength :: transferGo totalLength (downloaded + c) rest

/-- All progress values written to the job store during one transfer whose
chunks have the given sizes (`downloadedLength` starts at 0). -/
def transferProgressList (chunks : List Nat) (totalLength : Nat) : List Nat :=
  transferGo totalLength 0 chunks

/-- Running totals of `downloadedLength`, starting from `acc`. -/
def prefixSumsFrom : Nat → List Nat → List Nat
  | _, [] => []
  | acc, c :: rest => (acc + c) :: prefixSumsFrom (acc + c) rest

/-- Running totals of `downloadedLength` after each chunk. -/
def prefixSums : List Nat → List Nat :=
  prefixSumsFrom 0

/-- The first store write of `startDownload`: status downloading, progress
0, start timestamp. -/
def startUpdate (now : Int) : JobUpdate :=
  { status := some JobStatus.downloading, progress := some 0, startTime := some now,
    completedTime := none, filePath := none, error := none }

/-- A progress write from the `data` handler. -/
def progressUpdate (p : Nat) : JobUpdate :=
  { status := none, progress := some p, startTime := none,
    completedTime := none, filePath := none, error := none }

/-- The final store write of a successful `startDownload`: completed,
progress 100, completion timestamp, file path. -/
def completedUpdate (fp : String) (now : Int) : JobUpdate :=
  { status := some JobStatus.completed, progress := some 100, startTime := none,
    completedTime := some now, filePath := some fp, error := none }

/-- The store write of a failed or cancelled `startDownload`. -/
def failedUpdate (msg : String) : JobUpdate :=
  { status := some JobStatus.failed, progress := none, startTime := none,
    completedTime := none, filePath := none, error := some msg }

/-- The synchronous admission step of `DownloadService.startDownload`: a job
already in flight is rejected (the guard throws), otherwise the id joins
`activeDownloads` and the job is marked downloading with progress 0.  The
boolean reports whether the job was admitted. -/
def startDownload (s : DLState) (j : DownloadJob) (now : Int) : DLState × Bool :=
  if s.activeDownloads.contains j.id then (s, false)
  else
    ({ db := updateDownload s.db j.id (startUpdate now),
       activeDownloads := s.activeDownloads ++ [j.id] }, true)

/-- The fire-and-forget loop at the end of `processQueue`: start each job in
turn; a rejected start (already in flight) is caught and does not stop the
others.  Returns the final state and the ids of the jobs started. -/
def startAll (now : Int) : List DownloadJob → DLState → DLState × List String
  | [], s => (s, [])
  | j :: rest, s =>
    let p := startDownload s j now
    let r := startAll now rest p.1
    (r.1, (if p.2 then [j.id] else []) ++ r.2)

/-- `DownloadService.processQueue`: no-op at or above the concurrency
ceiling, otherwise start the first `maxConcurrentDownloads - active` queued
jobs in queue order. -/
def processQueue (s : DLState) (now : Int) : DLState × List String :=
  if s.db.settings.maxConcurrentDownloads ≤ s.activeDownloads.length then (s, [])
  else
    let availableSlots := s.db.settings.maxConcurrentDownloads - s.activeDownloads.length
    startAll now ((getQueuedDownloads s.db).take availableSlots) s

/-- The success tail of `startDownload`: mark the job completed (progress
100, completion time, file path) and drop it from the in-flight set. -/
def finishDownload (s : DLState) (jobId : String) (fp : String) (now : Int) : DLState :=
  { db := updateDownload s.db jobId (completedUpdate fp now),
    activeDownloads := s.activeDownloads.erase jobId }

/-- `DownloadService.cancelDownload`: a job not in flight yields `false`
with the state untouched; an in-flight job is aborted, dropped from the
in-flight set and marked failed with a cancellation message. -/
def cancelDownload (s : DLState) (jobId : String) : DLState × Bool :=
  if s.activeDownloads.contains jobId then
    ({ db := updateDownload s.db jobId (failedUpdate "Cancelled by user"),
       activeDownloads := s.activeDownloads.erase jobId }, true)
  else (s, false)

/-! ## Vimms search client (`src/services/vimms.ts`, `VimmsService`) -/

/-- `VimmsService.parseVersion`, scaled by 10000 so the exact value
`major + minor/100 + patch/10000` becomes the natural number
`major*10000 + minor*100 + patch`; a dash marks a date, ranked 9999
(scaled `9999*10000`).  Comparisons of scaled values agree with the
comparisons of the exact rational values in the source. -/
def parseVersion (version : String) : Nat :=
  if version.data.contains '-' then 9999 * 10000
  else
    let parts := (splitOnChar '.' version.data).map parseIntOr0
    (parts.getD 0 0) * 10000 + (parts.getD 1 0) * 100 + (parts.getD 2 0)

/-- The fixed region preference table of `deduplicateAndPrioritize`. -/
def regionPriority : List String := ["Australia", "USA", "Europe", "Japan"]

/-- `a.region || 'Unknown'`: absent or empty region falls back to
`Unknown`. -/
def regionValue (g : Game) : String :=
  match g.region with
  | some r => if r = "" then "Unknown" else r
  | none => "Unknown"

/-- `regionPriority.indexOf(region)` with `-1` mapped to 999. -/
def regionIdx (g : Game) : Nat :=
  match List.findIdx? (fun r => r == regionValue g) regionPriority with
  | some i => i
  | none => 999

/-- `a.version || '1.0'`. -/
def versionValue (g : Game) : String :=
  match g.version with
  | some v => if v = "" then "1.0" else v
  | none => "1.0"

/-- The comparator of `deduplicateAndPrioritize` as a boolean order:
`le a b` holds when the comparator returns a nonpositive value, i.e. when
`a` sorts no later than `b` (smaller region index first; on a region tie,
the higher parsed version first). -/
def gameLE (a b : Game) : Bool :=
  if regionIdx a = regionIdx b then
    decide (parseVersion (versionValue b) ≤ parseVersion (versionValue a))
  else decide (regionIdx a < regionIdx b)

/-- The group representative: first element of the stable sort by the
comparator (`gameList.sort(...)[0]`). -/
def bestOfGroup (gs : List Game) : Option Game :=
  (stableSort gameLE gs).head?

/-- Does this whole suffix match the regular expression
`\s*\([^)]*\)$`: optional whitespace, an opening parenthesis, characters
other than a closing parenthesis, a closing parenthesis at the end? -/
def isParenSuffix (s : List Char) : Bool :=
  match s.dropWhile Char.isWhitespace with
  | '(' :: rest =>
    match rest.reverse with
    | ')' :: midrev => midrev.all (fun c => !(c = ')'))
    | _ => false
  | _ => false

/-- Does this whole suffix match the regular expression `\s*-\s*[^-]*$`:
optional whitespace, a dash, then no further dash up to the end? -/
def isDashSuffix (s : List Char) : Bool :=
  match s.dropWhile Char.isWhitespace with
  | '-' :: rest => rest.all (fun c => !(c = '-'))
  | _ => false

/-- `String.replace(re, '')` for an end-anchored pattern: the regex engine
scans left to right and removes the suffix starting at the first position
whose whole remainder matches, so the result is the prefix before that
position (both patterns used here match to the end of the string, so at
most one removal happens even under the `g` flag). -/
def removeMatchingSuffix (pred : List Char → Bool) : List Char → List Char
  | [] => []
  | c :: rest => if pred (c :: rest) then [] else c :: removeMatchingSuffix pred rest

/-- `String.prototype.trim`: drop leading and trailing whitespace. -/
def trimChars (cs : List Char) : List Char :=
  ((cs.dropWhile Char.isWhitespace).reverse.dropWhile Char.isWhitespace).reverse

/-- The group key of `deduplicateAndPrioritize`: strip one trailing
parenthetical suffix, then one trailing dash suffix, then trim. -/
def normalizeName (name : String) : String :=
  String.mk (trimChars
    (removeMatchingSuffix isDashSuffix
      (removeMatchingSuffix isParenSuffix name.data)))

/-- Append `g` to the group keyed `k`, creating the group at the end on
first sight (insertion-ordered `Map` semantics). -/
def groupInsert (k : String) (g : Game) : List (String × List Game) → List (String × List Game)
  | [] => [(k, [g])]
  | (k', gs) :: rest =>
    if k' = k then (k', gs ++ [g]) :: rest else (k', gs) :: groupInsert k g rest

/-- Group games by normalized name, preserving insertion order of both the
groups and their members. -/
def groupGames (games : List Game) : List (String × List Game) :=
  games.foldl (fun acc g => groupInsert (normalizeName g.name) g acc) []

/-- Final alphabetical comparator (`a.name.localeCompare(b.name)`),
modelled as code-point order on names. -/
def nameLE (a b : Game) : Bool :=
  charListLE a.name.data b.name.data

/-- `VimmsService.deduplicateAndPrioritize`: group by normalized name, keep
the best of each group, sort the representatives alphabetically. -/
def deduplicateAndPrioritize (games : List Game) : List Game :=
  stableSort nameLE ((groupGames games).filterMap (fun p => bestOfGroup p.2))

/-- The parse-relevant content of one `tr` row of the Vimms results page
(the fields cheerio extracts in `searchGames`). -/
structure VimmRow where
  linkText : String
  linkHref : Option String
  hasRedBorder : Bool
  rowText : String
  numCells : Nat
  flagTitle : Option String
  versionText : String
deriving DecidableEq, Repr

/-- A fetched Vimms listing page: the no-matches marker test on the raw
body, and the table rows found by cheerio. -/
structure VimmPage where
  noMatches : Bool
  rows : List VimmRow
deriving DecidableEq, Repr

/-- The base URL of the Vimms site. -/
def VIMMS_BASE_URL : String := "https://vimm.net"

/-- The console-alias table of `VimmsService.searchGames`. -/
def vimmsConsoleMapping : List (String × String) :=
  [("gameboy", "GB"), ("gb", "GB"), ("gba", "GBA"), ("gbc", "GBC"),
   ("nes", "NES"), ("snes", "SNES"), ("n64", "N64"),
   ("genesis", "Genesis"), ("megadrive", "Genesis"), ("mastersystem", "SMS"),
   ("saturn", "Saturn"), ("dreamcast", "Dreamcast"),
   ("psx", "PS1"), ("ps1", "PS1"), ("ps2", "PS2"), ("ps3", "PS3"),
   ("psp", "PSP"), ("ds", "DS"), ("nds", "DS"), ("3ds", "3DS")]

/-- `consoleMapping[consoleSystem.toLowerCase()] || consoleSystem`. -/
def vimmsMapConsole (consoleSystem : String) : String :=
  (List.lookup (lowerStr consoleSystem) vimmsConsoleMapping).getD consoleSystem

/-- The digits captured by `\/vault\/(\d+)` : the first occurrence of
`/vault/` followed by at least one digit. -/
def vaultDigits : List Char → Option (List Char)
  | [] => none
  | c :: rest =>
    if "/vault/".data.isPrefixOf (c :: rest) then
      let ds := ((c :: rest).drop 7).takeWhile Char.isDigit
      if ds.isEmpty then vaultDigits rest else some ds
    else vaultDigits rest

/-- The per-row extraction of `VimmsService.searchGames` (lines 86-143):
rows without a vault link, the `Advanced Search` link row, and rows flagged
as demo, prototype or unlicensed yield no game. -/
def parseVimmRow (mappedConsole : String) (r : VimmRow) : Option Game :=
  match r.linkHref with
  | none => none
  | some gameUrl =>
    if r.linkText = "" || strContains r.linkText "Advanced Search" then none
    else
      let vaultId := (vaultDigits gameUrl.data).map String.mk
      let isDemoOrProto := r.hasRedBorder &&
        (strContains r.rowText "Demo" || strContains r.rowText "Prototype" ||
         strContains r.rowText "Unlicensed" ||
         strContains (lowerStr r.linkText) "demo" ||
         strContains (lowerStr r.linkText) "prototype")
      let region :=
        if 3 ≤ r.numCells then
          match r.flagTitle with
          | some t => if t = "" then "Unknown" else t
          | none => "Unknown"
        else "Unknown"
      let version :=
        if 3 ≤ r.numCells && !(r.versionText = "") && !(r.versionText = "-") then
          r.versionText
        else "1.0"
      if isDemoOrProto then none
      else
        some { name := r.linkText, url := VIMMS_BASE_URL ++ gameUrl,
               console := mappedConsole, size := some "Unknown",
               vaultId := vaultId, region := some region, version := some version }

/-- `VimmsService.searchGames` after a cache miss, with the network fetch
passed in as an `Except` value: a rejected fetch lands in the catch block
and yields an empty result carrying the raw console id; a page with the
no-matches marker yields an empty result; otherwise the parsed rows are
deduplicated, truncated to 10 and reported with the pre-truncation count. -/
def vimmsSearchGames (fetched : Except String VimmPage)
    (consoleSystem searchTerm : String) : SearchResult :=
  let mappedConsole := vimmsMapConsole consoleSystem
  match fetched with
  | Except.error _ =>
    { games := [], totalFound := 0, searchTerm := searchTerm, console := consoleSystem }
  | Except.ok page =>
    if page.noMatches then
      { games := [], totalFound := 0, searchTerm := searchTerm, console := mappedConsole }
    else
      let deduplicated := deduplicateAndPrioritize
        (page.rows.filterMap (parseVimmRow mappedConsole))
      { games := deduplicated.take 10, totalFound := deduplicated.length,
        searchTerm := searchTerm, console := mappedConsole }

/-! ## Myrient search client (`src/services/myrient.ts`, `MyrientService`) -/

/-- The parse-relevant content of one anchor of the Myrient listing page:
the href attribute, the trimmed link text, and the size string that
`extractSize` recovers from the sibling cells (if any). -/
structure MyrientRow where
  href : Option String
  nameText : String
  sizeText : Option String
deriving DecidableEq, Repr

/-- The base URL of the Myrient site. -/
def MYRIENT_BASE_URL : String := "https://myrient.erista.me"

/-- The console-alias table of `MyrientService.searchGames`. -/
def myrientConsoleMapping : List (String × String) :=
  [("gameboy", "No-Intro/Nintendo - Game Boy"),
   ("gb", "No-Intro/Nintendo - Game Boy"),
   ("gba", "No-Intro/Nintendo - Game Boy Advance"),
   ("gbc", "No-Intro/Nintendo - Game Boy Color"),
   ("nes", "No-Intro/Nintendo - Nintendo Entertainment System"),
   ("snes", "No-Intro/Nintendo - Super Nintendo Entertainment System"),
   ("n64", "No-Intro/Nintendo - Nintendo 64"),
   ("genesis", "No-Intro/Sega - Mega Drive - Genesis"),
   ("megadrive", "No-Intro/Sega - Mega Drive - Genesis"),
   ("mastersystem", "No-Intro/Sega - Master System - Mark III"),
   ("saturn", "No-Intro/Sega - Saturn"),
   ("dreamcast", "No-Intro/Sega - Dreamcast"),
   ("psx", "Redump/Sony - PlayStation"),
   ("ps1", "Redump/Sony - PlayStation"),
   ("playstation", "Redump/Sony - PlayStation")]

/-- The reduced alias table re-declared inside the catch block of
`MyrientService.searchGames` (only the Game Boy aliases). -/
def myrientErrorMapping : List (String × String) :=
  [("gameboy", "No-Intro/Nintendo - Game Boy"),
   ("gb", "No-Intro/Nintendo - Game Boy")]

/-- `consoleMapping[consoleSystem.toLowerCase()] || consoleSystem` over a
given table. -/
def mapConsoleWith (table : List (String × String)) (consoleSystem : String) : String :=
  (List.lookup (lowerStr consoleSystem) table).getD consoleSystem

/-- The ROM-file extensions of the `isRom` regular expression. -/
def romExtensions : List String :=
  ["zip", "7z", "rar", "nes", "smc", "sfc", "n64", "z64", "gb", "gbc", "gba",
   "nds", "iso", "bin", "cue", "md", "smd", "32x", "gg", "sms", "pce", "ws", "wsc"]

/-- `/\.(zip|...)$/i.test(href)`: the lower-cased href ends with a dot and
one of the listed extensions. -/
def isRomHref (href : String) : Bool :=
  romExtensions.any (fun e => ("." ++ e).data.isSuffixOf (lowerStr href).data)

/-- A JS word character (`\w` = `[A-Za-z0-9_]`). -/
def isWordChar (c : Char) : Bool :=
  c.isAlphanum || c = '_'

/-- Is the position after `prev` a word boundary for a following word
character (`\b`): the start of the string or a non-word character before. -/
def boundaryOK : Option Char → Bool
  | none => true
  | some c => !(isWordChar c)

/-- Scan for an occurrence of `kw` delimited by word boundaries on both
sides; `prev` is the character before the current position. -/
def wholeWordScan (kw : List Char) : Option Char → List Char → Bool
  | _, [] => false
  | prev, c :: rest =>
    (boundaryOK prev && kw.isPrefixOf (c :: rest) &&
      boundaryOK ((c :: rest).drop kw.length).head?) ||
    wholeWordScan kw (some c) rest

/-- Does `s` contain `kw` as a whole word (`\b kw \b`)? -/
def containsWholeWord (s kw : String) : Bool :=
  wholeWordScan kw.data none s.data

/-- The keyword list of the demo filter regular expression
`/\b(demo|sample|preview|beta|alpha|proto|prototype|trial|kiosk|test)\b/i`. -/
def demoKeywords : List String :=
  ["demo", "sample", "preview", "beta", "alpha", "proto", "prototype",
   "trial", "kiosk", "test"]

/-- `isDemoGame`: the case-insensitive whole-word demo-keyword test on a
title (the `i` flag is modelled by lower-casing the title; the keywords are
lower-case already, and lower-casing does not change word-character
status). -/
def isDemoGame (name : String) : Bool :=
  demoKeywords.any (fun kw => containsWholeWord (lowerStr name) kw)

/-- The per-anchor extraction of `MyrientService.searchGames` (lines
79-99): anchors with no href, parent-directory links, empty names, non-ROM
extensions, titles not containing the query, and demo-filtered titles yield
no game. -/
def parseMyrientRow (mappedPath consoleUrl searchLower : String)
    (r : MyrientRow) : Option Game :=
  match r.href with
  | none => none
  | some href =>
    if "..".data.isPrefixOf href.data || r.nameText = "" then none
    else
      if isRomHref href && strContains (lowerStr r.nameText) searchLower &&
          !(isDemoGame r.nameText) then
        some { name := r.nameText, url := consoleUrl ++ href, console := mappedPath,
               size := r.sizeText, vaultId := none, region := none, version := none }
      else none

/-- `MyrientService.searchGames`, with the network fetch passed in as an
`Except` value over the parsed anchors: a rejected fetch lands in the catch
block (which maps the console through the reduced table) and yields an
empty result; otherwise the matching rows are collected, truncated to 10
and reported with the pre-truncation count. -/
def myrientSearchGames (fetched : Except String (List MyrientRow))
    (consoleSystem searchTerm : String) : SearchResult :=
  match fetched with
  | Except.error _ =>
    { games := [], totalFound := 0, searchTerm := searchTerm,
      console := mapConsoleWith myrientErrorMapping consoleSystem }
  | Except.ok rows =>
    let mappedPath := mapConsoleWith myrientConsoleMapping consoleSystem
    let consoleUrl := MYRIENT_BASE_URL ++ "/files/" ++ mappedPath ++ "/"
    let games := rows.filterMap
      (parseMyrientRow mappedPath consoleUrl (lowerStr searchTerm))
    { games := games.take 10, totalFound := games.length,
      searchTerm := searchTerm, console := mappedPath }

/-! ## Transfer progress lemmas -/

theorem transferGo_eq_map (totalLength : Nat) (chunks : List Nat) (d : Nat)
    (h : 0 < totalLength) :
    transferGo totalLength d chunks =
      (prefixSumsFrom d chunks).map (fun b => jsRound (b * 100) totalLength) := by
  induction chunks generalizing d with
  | nil => rfl
  | cons c rest ih =>
    simp only [transferGo, prefixSumsFrom, List.map_cons, progressValue, h, if_pos]
    exact congrArg _ (ih (d + c))

theorem transferGo_zero_total (chunks : List Nat) (d : Nat) :
    transferGo 0 d chunks = chunks.map (fun _ => 0) := by
  induction chunks generalizing d with
  | nil => rfl
  | cons c rest ih =>
    simp only [transferGo, List.map_cons, progressValue, lt_irrefl, if_false]
    rw [ih (d + c)]

theorem progressValue_mono (t : Nat) {d1 d2 : Nat} (h : d1 ≤ d2) :
    progressValue d1 t ≤ progressValue d2 t := by
  unfold progressValue jsRound
  by_cases ht : 0 < t
  · simp only [ht, if_pos]
    exact Nat.div_le_div_right (by omega)
  · rw [if_neg ht, if_neg ht]

theorem progressValue_zero (t : Nat) : progressValue 0 t = 0 := by
  unfold progressValue jsRound
  by_cases ht : 0 < t
  · rw [if_pos ht, Nat.zero_mul, Nat.mul_zero, Nat.zero_add]
    exact Nat.div_eq_of_lt (by omega)
  · rw [if_neg ht]

theorem chain_transferGo (t : Nat) (chunks : List Nat) (d : Nat) :
    List.Chain' (· ≤ ·) (progressValue d t :: transferGo t d chunks) := by
  induction chunks generalizing d with
  | nil => simp [transferGo]
  | cons c rest ih =>
    rw [transferGo, List.chain'_cons]
    exact ⟨progressValue_mono t (Nat.le_add_right d c), ih (d + c)⟩

/-! ## Claim C1 -/

/-- The progress formula as the specification words it:
`floor(bytesReceived / totalBytes * 100)` when the total length is known,
0 otherwise.  This definition follows the SPEC text, to be compared with
the code model `progressValue` / `transferProgressList`. -/
def specFloorProgress (bytesReceived totalBytes : Nat) : Nat :=
  if 0 < totalBytes then bytesReceived * 100 / totalBytes else 0

/-- C1 (counterexample): with a known total of 200 bytes and one 1-byte
chunk, the code writes progress 1 (`Math.round(0.5*... ) = 1`) while the
claimed floor formula gives 0, so the progress written is not the floor. -/
theorem c1_floor_counterexample :
    transferProgressList [1] 200 = [1]
    ∧ specFloorProgress 1 200 = 0
    ∧ transferProgressList [1] 200 ≠ [specFloorProgress 1 200] := by
  decide

/-- C1 (amended): during a transfer, whenever the total content length is
known (positive), every progress value written to the job store equals
`Math.round(bytesReceived / totalBytes * 100)` — round half up, not floor —
of the bytes received so far; when the total length is unknown, every write
is 0 for the whole transfer. -/
theorem c1_progress_round (chunks : List Nat) (totalLength : Nat) :
    (0 < totalLength →
      transferProgressList chunks totalLength =
        (prefixSums chunks).map (fun bytesReceived => jsRound (bytesReceived * 100) totalLength))
    ∧ (totalLength = 0 →
      transferProgressList chunks totalLength = chunks.map (fun _ => 0)) := by
  constructor
  · intro h
    exact transferGo_eq_map totalLength chunks 0 h
  · intro h
    subst h
    exact transferGo_zero_total chunks 0

/-- Witness for C1: a concrete transfer of chunks 1, 99 and 100 bytes out
of 200 writes exactly the rounded percentages 1, 50, 100. -/
theorem c1_progress_round_witness :
    0 < 200 ∧ transferProgressList [1, 99, 100] 200 = [1, 50, 100] := by
  refine ⟨by norm_num, ?_⟩
  have h := (c1_progress_round [1, 99, 100] 200).1 (by norm_num)
  rw [h]
  decide

/-! ## Claim C4 -/

/-- C4: a download job is created by `addDownload` with progress 0; the
sequence of progress values written while the job is in the downloading
state (the initial 0 written by `startDownload` followed by the per-chunk
writes) is monotonically non-decreasing; and the completion write forces
progress 100 together with the completed status. -/
theorem c4_progress_invariants (id : String) (g : Game) (created : Int)
    (chunks : List Nat) (totalLength : Nat) (j : DownloadJob) (fp : String) (done : Int) :
    (addDownload id g created).progress = 0
    ∧ (applyUpdate j (startUpdate created)).progress = 0
    ∧ (applyUpdate j (startUpdate created)).status = JobStatus.downloading
    ∧ List.Chain' (· ≤ ·) (0 :: transferProgressList chunks totalLength)
    ∧ (applyUpdate j (completedUpdate fp done)).progress = 100
    ∧ (applyUpdate j (completedUpdate fp done)).status = JobStatus.completed := by
  refine ⟨rfl, rfl, rfl, ?_, rfl, rfl⟩
  have h := chain_transferGo totalLength chunks 0
  rw [progressValue_zero] at h
  exact h

/-! ## Comparator order lemmas and claim C2 -/

theorem gameLE_total (a b : Game) : gameLE a b = true ∨ gameLE b a = true := by
  unfold gameLE
  by_cases h : regionIdx a = regionIdx b
  · rw [if_pos h, if_pos h.symm]
    simp only [decide_eq_true_eq]
    omega
  · rw [if_neg h, if_neg (Ne.symm h)]
    simp only [decide_eq_true_eq]
    omega

theorem gameLE_trans (a b c : Game) (hab : gameLE a b = true) (hbc : gameLE b c = true) :
    gameLE a c = true := by
  unfold gameLE at hab hbc ⊢
  by_cases h1 : regionIdx a = regionIdx b
  · rw [if_pos h1] at hab
    by_cases h2 : regionIdx b = regionIdx c
    · rw [if_pos h2] at hbc
      rw [if_pos (h1.trans h2)]
      simp only [decide_eq_true_eq] at hab hbc ⊢
      omega
    · rw [if_neg h2] at hbc
      simp only [decide_eq_true_eq] at hbc
      have hac : ¬ (regionIdx a = regionIdx c) := by omega
      rw [if_neg hac]
      simp only [decide_eq_true_eq]
      omega
  · rw [if_neg h1] at hab
    simp only [decide_eq_true_eq] at hab
    by_cases h2 : regionIdx b = regionIdx c
    · have hac : ¬ (regionIdx a = regionIdx c) := by omega
      rw [if_neg hac]
      simp only [decide_eq_true_eq]
      omega
    · rw [if_neg h2] at hbc
      simp only [decide_eq_true_eq] at hbc
      have hac : ¬ (regionIdx a = regionIdx c) := by omega
      rw [if_neg hac]
      simp only [decide_eq_true_eq]
      omega

theorem gameLE_spec (x y : Game) (h : gameLE x y = true) :
    regionIdx x < regionIdx y
    ∨ (regionIdx x = regionIdx y
       ∧ parseVersion (versionValue y) ≤ parseVersion (versionValue x)) := by
  unfold gameLE at h
  by_cases he : regionIdx x = regionIdx y
  · rw [if_pos he] at h
    right
    exact ⟨he, by simpa using h⟩
  · rw [if_neg he] at h
    left
    simpa using h

/-- Two same-title candidates differing only in their region: USA. -/
def gameUSA : Game :=
  { name := "Zelda", url := "https://vimm.net/vault/101", console := "GB",
    size := some "Unknown", vaultId := some "101", region := some "USA",
    version := some "1.0" }

/-- Two same-title candidates differing only in their region: Japan. -/
def gameJapan : Game :=
  { name := "Zelda", url := "https://vimm.net/vault/101", console := "GB",
    size := some "Unknown", vaultId := some "101", region := some "Japan",
    version := some "1.0" }

/-- Two same-title same-region candidates differing only in version: 1.0. -/
def gameV100 : Game :=
  { name := "Zelda", url := "https://vimm.net/vault/102", console := "GB",
    size := some "Unknown", vaultId := some "102", region := some "USA",
    version := some "1.0" }

/-- Two same-title same-region candidates differing only in version: 1.01. -/
def gameV101 : Game :=
  { name := "Zelda", url := "https://vimm.net/vault/102", console := "GB",
    size := some "Unknown", vaultId := some "102", region := some "USA",
    version := some "1.01" }

/-- C2: the representative of every duplicate group is a member of the
group that is optimal for the comparator: its region index (position in
Australia, USA, Europe, Japan, with unknown regions at 999) is no larger
than that of any other member, and against members with the same region
index its parsed version is no smaller; every nonempty group yields exactly
one representative.  Concretely, USA beats Japan and version 1.01 beats 1.0
in either input order. -/
theorem c2_dedup_representative (gs : List Game) (g : Game)
    (hbest : bestOfGroup gs = some g) :
    (g ∈ gs
     ∧ (∀ g' ∈ gs, regionIdx g < regionIdx g'
         ∨ (regionIdx g = regionIdx g'
            ∧ parseVersion (versionValue g') ≤ parseVersion (versionValue g)))
     ∧ (∀ gs' : List Game, gs' ≠ [] → (bestOfGroup gs').isSome = true))
    ∧ bestOfGroup [gameJapan, gameUSA] = some gameUSA
    ∧ bestOfGroup [gameUSA, gameJapan] = some gameUSA
    ∧ bestOfGroup [gameV100, gameV101] = some gameV101
    ∧ bestOfGroup [gameV101, gameV100] = some gameV101 := by
  refine ⟨⟨?_, ?_, ?_⟩, by decide, by decide, by decide, by decide⟩
  · rcases List.head?_eq_some_iff.mp hbest with ⟨t, ht⟩
    have hperm := stableSort_perm gameLE gs
    rw [ht] at hperm
    exact hperm.mem_iff.mp (List.mem_cons_self g t)
  · intro g' hg'
    rcases List.head?_eq_some_iff.mp hbest with ⟨t, ht⟩
    have hperm := stableSort_perm gameLE gs
    rw [ht] at hperm
    have hpair := pairwise_stableSort gameLE gameLE_trans gameLE_total gs
    rw [ht] at hpair
    rcases List.mem_cons.mp (hperm.mem_iff.mpr hg') with rfl | hmem
    · right
      exact ⟨rfl, le_rfl⟩
    · exact gameLE_spec g g' (List.rel_of_pairwise_cons hpair hmem)
  · intro gs' hne
    unfold bestOfGroup
    have hlen : (stableSort gameLE gs').length = gs'.length :=
      (stableSort_perm gameLE gs').length_eq
    cases hsorted : stableSort gameLE gs' with
    | nil =>
      exfalso
      rw [hsorted] at hlen
      exact hne (List.length_eq_zero.mp hlen.symm)
    | cons x xs => simp [hsorted]

/-- Witness for C2: the theorem applied to the concrete USA/Japan group. -/
theorem c2_dedup_representative_witness :
    bestOfGroup [gameJapan, gameUSA] = some gameUSA
    ∧ gameUSA ∈ [gameJapan, gameUSA] := by
  have h := c2_dedup_representative [gameJapan, gameUSA] gameUSA (by decide)
  exact ⟨h.2.1, h.1.1⟩

/-! ## Queue lemmas and claim C3 -/

theorem startAll_spec (now : Int) (js : List DownloadJob) (s : DLState)
    (hnodup : (js.map (fun j => j.id)).Nodup)
    (hdisj : ∀ j ∈ js, s.activeDownloads.contains j.id = false) :
    (startAll now js s).2 = js.map (fun j => j.id)
    ∧ (startAll now js s).1.activeDownloads = s.activeDownloads ++ js.map (fun j => j.id) := by
  induction js generalizing s with
  | nil => simp [startAll]
  | cons j rest ih =>
    rw [List.map_cons, List.nodup_cons] at hnodup
    rcases hnodup with ⟨hjnot, hnodup'⟩
    have hj : s.activeDownloads.contains j.id = false := hdisj j (List.mem_cons_self j rest)
    have hstart : startDownload s j now =
        ({ db := updateDownload s.db j.id (startUpdate now),
           activeDownloads := s.activeDownloads ++ [j.id] }, true) := by
      unfold startDownload
      rw [hj]
      simp
    have hdisj' : ∀ x ∈ rest,
        (s.activeDownloads ++ [j.id]).contains x.id = false := by
      intro x hx
      have h1 : s.activeDownloads.contains x.id = false :=
        hdisj x (List.mem_cons_of_mem j hx)
      have h2 : ¬ (x.id = j.id) := by
        intro he
        exact hjnot (he ▸ List.mem_map_of_mem (fun j => j.id) hx)
      have h1m : x.id ∉ s.activeDownloads := by simpa using h1
      simp [h1m, h2]
    have hrest := ih { db := updateDownload s.db j.id (startUpdate now),
                       activeDownloads := s.activeDownloads ++ [j.id] } hnodup' hdisj'
    simp only [startAll, hstart, if_pos, List.map_cons]
    refine ⟨by rw [hrest.1]; rfl, ?_⟩
    rw [hrest.2]
    simp

/-- A sample game used by the concrete queue scenario. -/
def sampleGame (n : String) : Game :=
  { name := n, url := "http://files.example/" ++ n, size := none, console := "gb",
    vaultId := none, region := none, version := none }

/-- A sample queued job used by the concrete queue scenario. -/
def sampleJob (n : String) : DownloadJob :=
  { id := n, game := sampleGame n, status := JobStatus.queued, progress := 0,
    startTime := none, completedTime := none, filePath := none, error := none }

/-- The concrete scenario of the specification: five queued jobs, ceiling
3, nothing in flight. -/
def sampleState : DLState :=
  { db := { downloads := [sampleJob "1", sampleJob "2", sampleJob "3",
                          sampleJob "4", sampleJob "5"],
            settings := { downloadPath := "./downloads", maxConcurrentDownloads := 3 } },
    activeDownloads := [] }

/-- C3: `processQueue` starts nothing at or above the concurrency ceiling;
below it, the started jobs are exactly the first
`maxConcurrentDownloads - inFlight` queued jobs in queue order, hence
`min(maxConcurrentDownloads - inFlight, queued)` of them.  Concretely, with
ceiling 3 and five queued jobs it starts jobs 1, 2, 3 and leaves 2 queued,
and after job 1 completes a second invocation starts exactly job 4. -/
theorem c3_processQueue (s : DLState) (now : Int)
    (hnodup : ((getQueuedDownloads s.db).map (fun j => j.id)).Nodup)
    (hdisj : ∀ j ∈ getQueuedDownloads s.db, s.activeDownloads.contains j.id = false) :
    ((s.db.settings.maxConcurrentDownloads ≤ s.activeDownloads.length →
      processQueue s now = (s, []))
    ∧ (s.activeDownloads.length < s.db.settings.maxConcurrentDownloads →
      (processQueue s now).2 =
        ((getQueuedDownloads s.db).take
          (s.db.settings.maxConcurrentDownloads - s.activeDownloads.length)).map
            (fun j : DownloadJob => j.id)
      ∧ (processQueue s now).2.length =
          min (s.db.settings.maxConcurrentDownloads - s.activeDownloads.length)
            (getQueuedDownloads s.db).length))
    ∧ (processQueue sampleState 0).2 = ["1", "2", "3"]
    ∧ (getQueuedDownloads (processQueue sampleState 0).1.db).length = 2
    ∧ (processQueue (finishDownload (processQueue sampleState 0).1 "1" "/roms/1" 1) 2).2
        = ["4"] := by
  refine ⟨⟨?_, ?_⟩, by decide, by decide, by decide⟩
  · intro h
    unfold processQueue
    rw [if_pos h]
  · intro h
    have hne : ¬ (s.db.settings.maxConcurrentDownloads ≤ s.activeDownloads.length) :=
      not_le.mpr h
    unfold processQueue
    rw [if_neg hne]
    have htknodup :
        (((getQueuedDownloads s.db).take
          (s.db.settings.maxConcurrentDownloads - s.activeDownloads.length)).map
            (fun j => j.id)).Nodup :=
      ((List.take_sublist
          (s.db.settings.maxConcurrentDownloads - s.activeDownloads.length)
          (getQueuedDownloads s.db)).map (fun j : DownloadJob => j.id)).nodup hnodup
    have htkdisj : ∀ j ∈ (getQueuedDownloads s.db).take
        (s.db.settings.maxConcurrentDownloads - s.activeDownloads.length),
        s.activeDownloads.contains j.id = false :=
      fun j hj => hdisj j (List.mem_of_mem_take hj)
    have hs := startAll_spec now _ s htknodup htkdisj
    refine ⟨hs.1, ?_⟩
    rw [hs.1, List.length_map, List.length_take]

/-- Witness for C3: the theorem applied to the concrete five-job state. -/
theorem c3_processQueue_witness :
    ((sampleState.db.settings.maxConcurrentDownloads ≤ 3)
    ∧ (processQueue sampleState 0).2 = ["1", "2", "3"]) := by
  have h := c3_processQueue sampleState 0 (by decide) (by decide)
  exact ⟨by decide, h.2.1⟩

/-! ## Claims C5 and C10 -/

/-- C5: a `get` immediately after a `set` whose positive TTL has not yet
elapsed returns exactly the stored result; once the TTL has elapsed the
`get` reports a miss and deletes the record, so the key is no longer
present in the store it returns. -/
theorem c5_cache_ttl (c : CacheStore) (service consoleSystem searchTerm : String)
    (result : SearchResult) (t0 t1 ttl : Int) (httl : 0 < ttl) :
    (t1 - t0 ≤ ttl →
      (cacheGet (cacheSet c service consoleSystem searchTerm result t0 (some ttl))
        service consoleSystem searchTerm t1).1 = some result)
    ∧ (ttl < t1 - t0 →
      (cacheGet (cacheSet c service consoleSystem searchTerm result t0 (some ttl))
        service consoleSystem searchTerm t1).1 = none
      ∧ List.lookup (getCacheKey service consoleSystem searchTerm)
          (cacheGet (cacheSet c service consoleSystem searchTerm result t0 (some ttl))
            service consoleSystem searchTerm t1).2 = none) := by
  have httl0 : ¬ (ttl = 0) := by omega
  constructor
  · intro hfresh
    have hcond : ¬ ((if ttl = 0 then defaultTTL else ttl) < t1 - t0) := by
      rw [if_neg httl0]; omega
    simp [cacheGet, cacheSet, List.lookup_cons, hcond]
  · intro hstale
    have hcond : (if ttl = 0 then defaultTTL else ttl) < t1 - t0 := by
      rw [if_neg httl0]; omega
    constructor
    · simp [cacheGet, cacheSet, List.lookup_cons, hcond]
    · simp only [cacheGet, cacheSet, List.lookup_cons, beq_self_eq_true]
      rw [if_pos hcond]
      exact lookup_cacheErase _ _

/-- A small stored result used by the cache witnesses. -/
def storedResult : SearchResult :=
  { games := [], totalFound := 0, searchTerm := "mario", console := "GB" }

/-- Witness for C5: a result stored at time 0 with TTL 100 is returned at
time 10 and gone at time 200. -/
theorem c5_cache_ttl_witness :
    ((0 : Int) < 100 ∧ (10 : Int) - 0 ≤ 100 ∧ (100 : Int) < 200 - 0)
    ∧ (cacheGet (cacheSet [] "vimms" "gb" "mario" storedResult 0 (some 100))
        "vimms" "gb" "mario" 10).1 = some storedResult
    ∧ (cacheGet (cacheSet [] "vimms" "gb" "mario" storedResult 0 (some 100))
        "vimms" "gb" "mario" 200).1 = none := by
  refine ⟨by norm_num, ?_, ?_⟩
  · exact (c5_cache_ttl [] "vimms" "gb" "mario" storedResult 0 10 100 (by norm_num)).1
      (by norm_num)
  · exact ((c5_cache_ttl [] "vimms" "gb" "mario" storedResult 0 200 100 (by norm_num)).2
      (by norm_num)).1

/-- The result stored under one of the two colliding triples of C10. -/
def collisionResult : SearchResult :=
  { games := [], totalFound := 7, searchTerm := "q", console := "b_c" }

/-- C10: the cache key is not injective: the distinct triples
(a, b_c, q) and (a_b, c, q) both map to the key a_b_c_q, and a `get` for
the second triple returns the result stored under the first. -/
theorem c10_cacheKey_collision :
    getCacheKey "a" "b_c" "q" = "a_b_c_q"
    ∧ getCacheKey "a_b" "c" "q" = "a_b_c_q"
    ∧ ("a", "b_c", "q") ≠ (("a_b", "c", "q") : String × String × String)
    ∧ (cacheGet (cacheSet [] "a" "b_c" "q" collisionResult 0 none) "a_b" "c" "q" 5).1 =
        some collisionResult := by
  decide

/-! ## Claim C7 -/

theorem find?_updateFirst (id : String) (u : JobUpdate) (jobs : List DownloadJob) :
    List.find? (fun j => j.id == id) (updateFirst id u jobs) =
      (List.find? (fun j => j.id == id) jobs).map (fun j => applyUpdate j u) := by
  induction jobs with
  | nil => rfl
  | cons j rest ih =>
    by_cases h : j.id = id
    · have hb : (j.id == id) = true := by simpa using h
      have hb2 : ((applyUpdate j u).id == id) = true := hb
      simp only [updateFirst, h, if_pos, List.find?_cons, hb, hb2, beq_self_eq_true]
      rfl
    · have hb : (j.id == id) = false := by simpa using h
      simp only [updateFirst, h, if_neg, not_false_eq_true, List.find?_cons, hb, ih]

/-- C7: cancelling a job id that is not in flight returns false and leaves
the whole state (in particular every stored status) unchanged; cancelling
an in-flight id returns true, removes the id from the in-flight set, and
rewrites the stored job to its failed form with the cancellation message,
so the job found under that id is Failed with error "Cancelled by user". -/
theorem c7_cancelDownload (s : DLState) (jobId : String)
    (hnodupA : s.activeDownloads.Nodup) :
    (s.activeDownloads.contains jobId = false → cancelDownload s jobId = (s, false))
    ∧ (s.activeDownloads.contains jobId = true →
      (cancelDownload s jobId).2 = true
      ∧ jobId ∉ (cancelDownload s jobId).1.activeDownloads
      ∧ getJob (cancelDownload s jobId).1.db jobId =
          (getJob s.db jobId).map (fun j => applyUpdate j (failedUpdate "Cancelled by user"))
      ∧ (∀ j, getJob (cancelDownload s jobId).1.db jobId = some j →
          j.status = JobStatus.failed ∧ j.error = some "Cancelled by user")) := by
  constructor
  · intro h
    unfold cancelDownload
    rw [h]
    simp
  · intro h
    have hcd : cancelDownload s jobId =
        ({ db := updateDownload s.db jobId (failedUpdate "Cancelled by user"),
           activeDownloads := s.activeDownloads.erase jobId }, true) := by
      unfold cancelDownload
      rw [h]
      simp
    have hmap : getJob (cancelDownload s jobId).1.db jobId =
        (getJob s.db jobId).map (fun j => applyUpdate j (failedUpdate "Cancelled by user")) := by
      rw [hcd]
      exact find?_updateFirst jobId (failedUpdate "Cancelled by user") s.db.downloads
    refine ⟨by rw [hcd], ?_, hmap, ?_⟩
    · rw [hcd]
      exact hnodupA.not_mem_erase
    · intro j hj
      rw [hmap] at hj
      rcases Option.map_eq_some'.mp hj with ⟨j0, _, hj0⟩
      rw [← hj0]
      exact ⟨rfl, rfl⟩

/-- A concrete state with job 1 in flight, used by the C7 witness. -/
def sampleActive : DLState :=
  { db := sampleState.db, activeDownloads := ["1"] }

/-- Witness for C7: cancelling the not-in-flight id 9 returns false and
changes nothing; cancelling the in-flight id 1 returns true and the stored
job 1 becomes Failed with the cancellation message. -/
theorem c7_cancelDownload_witness :
    cancelDownload sampleActive "9" = (sampleActive, false)
    ∧ (cancelDownload sampleActive "1").2 = true
    ∧ (∀ j, getJob (cancelDownload sampleActive "1").1.db "1" = some j →
        j.status = JobStatus.failed ∧ j.error = some "Cancelled by user") := by
  refine ⟨?_, ?_, ?_⟩
  · exact (c7_cancelDownload sampleActive "9" (by decide)).1 (by decide)
  · exact ((c7_cancelDownload sampleActive "1" (by decide)).2 (by decide)).1
  · exact ((c7_cancelDownload sampleActive "1" (by decide)).2 (by decide)).2.2.2

/-! ## Claim C6 -/

theorem deduplicate_nil : deduplicateAndPrioritize [] = [] := rfl

/-- C6: neither search client ever throws: a rejected fetch (the catch
block), a page carrying the no-results marker (or the 404 body, which
carries no rows that parse), and a parse that yields no games all produce a
`SearchResult` with an empty games list and `totalFound = 0`, carrying the
original query string.  Totality of these functions models the absence of
an escaping exception. -/
theorem c6_search_never_throws (consoleSystem searchTerm : String) :
    (∀ err : String,
      vimmsSearchGames (Except.error err) consoleSystem searchTerm =
        { games := [], totalFound := 0, searchTerm := searchTerm, console := consoleSystem })
    ∧ (∀ page : VimmPage, page.noMatches = true →
      vimmsSearchGames (Except.ok page) consoleSystem searchTerm =
        { games := [], totalFound := 0, searchTerm := searchTerm,
          console := vimmsMapConsole consoleSystem })
    ∧ (∀ page : VimmPage,
      page.rows.filterMap (parseVimmRow (vimmsMapConsole consoleSystem)) = [] →
      (vimmsSearchGames (Except.ok page) consoleSystem searchTerm).games = []
      ∧ (vimmsSearchGames (Except.ok page) consoleSystem searchTerm).totalFound = 0
      ∧ (vimmsSearchGames (Except.ok page) consoleSystem searchTerm).searchTerm = searchTerm)
    ∧ (∀ err : String,
      (myrientSearchGames (Except.error err) consoleSystem searchTerm).games = []
      ∧ (myrientSearchGames (Except.error err) consoleSystem searchTerm).totalFound = 0
      ∧ (myrientSearchGames (Except.error err) consoleSystem searchTerm).searchTerm = searchTerm)
    ∧ (∀ rows : List MyrientRow,
      rows.filterMap (parseMyrientRow (mapConsoleWith myrientConsoleMapping consoleSystem)
        (MYRIENT_BASE_URL ++ "/files/" ++ mapConsoleWith myrientConsoleMapping consoleSystem
          ++ "/") (lowerStr searchTerm)) = [] →
      (myrientSearchGames (Except.ok rows) consoleSystem searchTerm).games = []
      ∧ (myrientSearchGames (Except.ok rows) consoleSystem searchTerm).totalFound = 0
      ∧ (myrientSearchGames (Except.ok rows) consoleSystem searchTerm).searchTerm
          = searchTerm) := by
  refine ⟨fun err => rfl, fun page hnm => ?_, fun page hparse => ?_, fun err => ⟨rfl, rfl, rfl⟩,
    fun rows hparse => ?_⟩
  · simp [vimmsSearchGames, hnm]
  · cases hnm : page.noMatches with
    | true => simp [vimmsSearchGames, hnm]
    | false => simp [vimmsSearchGames, hnm, hparse, deduplicate_nil]
  · simp [myrientSearchGames, hparse]

/-- A Vimms results page whose only row has no vault link, so the parse
yields nothing.  Used by the C6 witness. -/
def emptyVimmPage : VimmPage :=
  { noMatches := false,
    rows := [{ linkText := "Advanced Search", linkHref := some "/vault/?p=adv",
               hasRedBorder := false, rowText := "Advanced Search", numCells := 1,
               flagTitle := none, versionText := "" }] }

/-- Witness for C6: the theorem applied at a concrete rejected fetch and at
a concrete page that parses to nothing. -/
theorem c6_search_never_throws_witness :
    vimmsSearchGames (Except.error "timeout") "gb" "zelda" =
      { games := [], totalFound := 0, searchTerm := "zelda", console := "gb" }
    ∧ (vimmsSearchGames (Except.ok emptyVimmPage) "gb" "zelda").games = []
    ∧ (myrientSearchGames (Except.error "timeout") "gb" "zelda").totalFound = 0 := by
  refine ⟨(c6_search_never_throws "gb" "zelda").1 "timeout", ?_, ?_⟩
  · exact ((c6_search_never_throws "gb" "zelda").2.2.1 emptyVimmPage (by decide)).1
  · exact ((c6_search_never_throws "gb" "zelda").2.2.2.1 "timeout").2.1

/-! ## Claim C8 -/

/-- A listing row whose title contains a demo keyword only inside a longer
word. -/
def adeRow : MyrientRow :=
  { href := some "Ademolition.zip", nameText := "Ademolition", sizeText := none }

/-- A listing row whose title contains the whole word Demo. -/
def demoRow : MyrientRow :=
  { href := some "Cool%20Demo.zip", nameText := "Cool Demo", sizeText := none }

/-- C8: no game produced by the flat-listing search has a title matching
the case-insensitive whole-word demo-keyword filter, while a title in which
a keyword occurs only inside a longer word passes the filter: concretely,
of the two rows Ademolition and Cool Demo matching the query, only
Ademolition is returned. -/
theorem c8_demo_filter (fetched : Except String (List MyrientRow))
    (consoleSystem searchTerm : String) :
    (∀ g ∈ (myrientSearchGames fetched consoleSystem searchTerm).games,
      isDemoGame g.name = false)
    ∧ isDemoGame "Ademolition" = false
    ∧ isDemoGame "Cool Demo" = true
    ∧ (myrientSearchGames (Except.ok [adeRow, demoRow]) "gb" "o").games.map
        (fun g => g.name) = ["Ademolition"] := by
  refine ⟨?_, by decide, by decide, by decide⟩
  intro g hg
  cases fetched with
  | error err => exact absurd hg (by simp [myrientSearchGames])
  | ok rows =>
    have hg' : g ∈ rows.filterMap
        (parseMyrientRow (mapConsoleWith myrientConsoleMapping consoleSystem)
          (MYRIENT_BASE_URL ++ "/files/" ++ mapConsoleWith myrientConsoleMapping consoleSystem
            ++ "/") (lowerStr searchTerm)) := by
      exact List.mem_of_mem_take hg
    rcases List.mem_filterMap.mp hg' with ⟨r, _, hr⟩
    unfold parseMyrientRow at hr
    cases hhref : r.href with
    | none =>
      rw [hhref] at hr
      exact absurd hr (by simp)
    | some href =>
      rw [hhref] at hr
      split at hr
      · exact absurd hr (by simp)
      · split at hr
        · exact absurd hr (by simp)
        · split at hr
          · rename_i hcond
            rw [Bool.and_eq_true] at hcond
            have hdemo : (!(isDemoGame r.nameText)) = true := hcond.2
            have hname : g.name = r.nameText := by
              have hinj := Option.some.inj hr
              rw [← hinj]
            rw [hname]
            simpa using hdemo
          · exact absurd hr (by simp)

/-- Witness for C8: the theorem applied at the concrete two-row listing. -/
theorem c8_demo_filter_witness :
    ((myrientSearchGames (Except.ok [adeRow, demoRow]) "gb" "o").games.map
        (fun g => g.name) = ["Ademolition"])
    ∧ isDemoGame "Ademolition" = false := by
  have h := c8_demo_filter (Except.ok [adeRow, demoRow]) "gb" "o"
  exact ⟨h.2.2.2, h.2.1⟩

/-! ## Claim C9 -/

/-- C9: `shouldConvertToCHD` holds exactly when the lower-cased system id
is in the fixed CD-based list and the lower-cased extension of the path is
one of .bin, .iso, .img, .cue; with the three concrete cases of the
specification. -/
theorem c9_shouldConvertToCHD :
    (∀ filePath systemName : String,
      shouldConvertToCHD filePath systemName = true ↔
        (lowerStr systemName ∈ CD_BASED_SYSTEMS
         ∧ lowerStr (extname filePath) ∈ CD_EXTENSIONS))
    ∧ shouldConvertToCHD "/x/game.ISO" "psx" = true
    ∧ shouldConvertToCHD "/x/game.zip" "psx" = false
    ∧ shouldConvertToCHD "/x/game.iso" "gb" = false := by
  refine ⟨?_, by decide, by decide, by decide⟩
  intro fp sn
  unfold shouldConvertToCHD isCDBasedSystem
  by_cases h : CD_BASED_SYSTEMS.contains (lowerStr sn) = true
  · rw [h]
    simp only [Bool.not_true, Bool.false_eq_true, if_neg, not_false_eq_true]
    constructor
    · intro hc
      exact ⟨by simpa using h, by simpa using hc⟩
    · intro hc
      simpa using hc.2
  · have hb : CD_BASED_SYSTEMS.contains (lowerStr sn) = false := by
      simpa using h
    rw [hb]
    simp only [Bool.not_false, if_pos, Bool.false_eq_true, false_iff, not_and]
    intro hmem
    exact absurd (by simpa using hmem : CD_BASED_SYSTEMS.contains (lowerStr sn) = true) h

/-- Witness for C9: the general characterization applied at the first
concrete case. -/
theorem c9_shouldConvertToCHD_witness :
    lowerStr "psx" ∈ CD_BASED_SYSTEMS
    ∧ lowerStr (extname "/x/game.ISO") ∈ CD_EXTENSIONS
    ∧ shouldConvertToCHD "/x/game.ISO" "psx" = true := by
  have h := (c9_shouldConvertToCHD.1 "/x/game.ISO" "psx").mp c9_shouldConvertToCHD.2.1
  exact ⟨h.1, h.2, c9_shouldConvertToCHD.2.1⟩

end Romba
